import Mathlib

/-!
Verification of the core logic of the `UIgifted_SnakeGame` repository
(`game.hpp` / `game.cpp`): grid positions, collision detection, the
per-tick update of `Game::update`, direction buffering, food generation,
obstacle/score/leaderboard file loading, and the difficulty model.

The C++ code is shallowly embedded: `std::deque<Position>` becomes
`List Position` (front = head), C++ `int` becomes `Int`, files are lists
of already-tokenised values, `rand()` is an explicit `Nat` parameter, and
`float` arithmetic in `calculateSpeed` is modelled by exact rationals.
-/

namespace SnakeGame

/-- Grid cell, mirroring `struct Position { int x, y; }` of `game.hpp`. -/
structure Position where
  x : Int
  y : Int
deriving DecidableEq

/-- `Game::GRID_WIDTH` (game.hpp line 54). -/
def GRID_WIDTH : Int := 30

/-- `Game::GRID_HEIGHT` (game.hpp line 55). -/
def GRID_HEIGHT : Int := 20

/-- `Game::MAX_LEADERBOARD_ENTRIES` (game.hpp line 58). -/
def MAX_LEADERBOARD_ENTRIES : Nat := 10

/-- `Game::MAX_OBSTACLES` (game.hpp line 59). -/
def MAX_OBSTACLES : Nat := 100

/-- Mirrors `Game::checkCollision` (game.cpp lines 433-439): the head is
`snake.front()`, the loop `for i = 1 .. size-1` checks the head against the
rest of the body, then against every obstacle. An empty snake never occurs
in the program (length is always at least 1); we return `false` there. -/
def checkCollision (snake obstacles : List Position) : Bool :=
  match snake with
  | [] => false
  | head :: rest =>
    if head.x < 0 ∨ head.x ≥ GRID_WIDTH ∨ head.y < 0 ∨ head.y ≥ GRID_HEIGHT then true
    else if head ∈ rest then true
    else if head ∈ obstacles then true
    else false

/-- C1: `checkCollision` returns true if and only if the head (front segment)
has `x < 0` or `x ≥ 30` or `y < 0` or `y ≥ 20`, or equals some non-head body
segment, or equals some obstacle; in every other case it returns false. -/
theorem checkCollision_iff (head : Position) (rest obstacles : List Position) :
    checkCollision (head :: rest) obstacles = true ↔
      (head.x < 0 ∨ head.x ≥ GRID_WIDTH ∨ head.y < 0 ∨ head.y ≥ GRID_HEIGHT
        ∨ head ∈ rest ∨ head ∈ obstacles) := by
  simp only [checkCollision]
  split_ifs with h1 h2 h3 <;> simp_all
  tauto

/-- Mirrors `Game::calculateSpeed` (game.cpp lines 611-616). The C++ code
computes in `float`; we model the arithmetic with exact rationals. Note
`score / 30` is C++ integer division, performed before the widening
multiplication by `0.02f`. -/
def calculateSpeed (score : Int) : ℚ :=
  let baseSpeed : ℚ := 15 / 100
  let speedIncrease : ℚ := ((score / 30 : Int) : ℚ) * (2 / 100)
  let minSpeed : ℚ := 5 / 100
  max minSpeed (baseSpeed - speedIncrease)

/-- Mirrors `Game::getDifficultyLevel` (game.cpp lines 606-608). -/
def getDifficultyLevel (score : Int) : Int := score / 50 + 1

/-- C8: for every non-negative score,
`calculateSpeed score = max 0.05 (0.15 - (score / 30) * 0.02)` (the division
being integer division, i.e. a floor for non-negative scores); the sample
values 0.15, 0.13 and 0.05 at scores 0, 30 and 300; monotone non-increase in
the score; and `getDifficultyLevel score = score / 50 + 1`. Modelled with
exact rational arithmetic in place of `float`. -/
theorem calculateSpeed_spec :
    (∀ score : Int, 0 ≤ score →
      calculateSpeed score = max (5 / 100) (15 / 100 - ((score / 30 : Int) : ℚ) * (2 / 100)))
    ∧ calculateSpeed 0 = 15 / 100
    ∧ calculateSpeed 30 = 13 / 100
    ∧ calculateSpeed 300 = 5 / 100
    ∧ (∀ s t : Int, 0 ≤ s → s ≤ t → calculateSpeed t ≤ calculateSpeed s)
    ∧ (∀ score : Int, getDifficultyLevel score = score / 50 + 1) := by
  refine ⟨fun score _ => rfl, by norm_num [calculateSpeed], by norm_num [calculateSpeed],
    by norm_num [calculateSpeed], fun s t _ hst => ?_, fun score => rfl⟩
  have hdiv : s / 30 ≤ t / 30 := Int.ediv_le_ediv (by norm_num) hst
  have hcast : ((s / 30 : Int) : ℚ) ≤ ((t / 30 : Int) : ℚ) := Int.cast_le.mpr hdiv
  have hmul : ((s / 30 : Int) : ℚ) * (2 / 100) ≤ ((t / 30 : Int) : ℚ) * (2 / 100) := by
    nlinarith
  simp only [calculateSpeed]
  exact max_le_max (le_refl _) (by linarith)

/-- Witness for C8 at concrete scores: the hypotheses `0 ≤ 0` and
`0 ≤ 10 ≤ 40` are discharged at score values 0, 10 and 40. -/
theorem calculateSpeed_spec_witness :
    calculateSpeed 0 = max (5 / 100) (15 / 100 - ((0 : Int) / 30 : Int) * (2 / 100 : ℚ))
    ∧ calculateSpeed 40 ≤ calculateSpeed 10 :=
  ⟨calculateSpeed_spec.1 0 (by decide),
    calculateSpeed_spec.2.2.2.2.1 10 40 (by decide) (by decide)⟩

/-- Mirrors `Game::loadHighestScores` (game.cpp lines 456-472): the file
`user_scores.txt` is a sequence of `name score` pairs (modelled as an already
tokenised list); the loop keeps running maxima, starting from 0, of all
scores (`overallHighestScore`) and of the scores whose name equals the active
player (`personalBestScore`). A missing file is the empty list. The result is
the pair `(overallHighestScore, personalBestScore)`. -/
def loadHighestScores (pairs : List (String × Int)) (playerName : String) : Int × Int :=
  pairs.foldl
    (fun acc p =>
      (if p.2 > acc.1 then p.2 else acc.1,
       if p.1 = playerName ∧ p.2 > acc.2 then p.2 else acc.2))
    (0, 0)

/-- Helper: a greater-than guarded update is a maximum. -/
theorem ite_gt_eq_max (acc v : Int) : (if v > acc then v else acc) = max acc v := by
  simp only [max_def]
  split_ifs <;> omega

/-- Helper: the overall component of the fold is a running maximum. -/
theorem loadHighestScores_fst (pairs : List (String × Int)) (playerName : String) :
    ∀ a b : Int,
      (pairs.foldl
        (fun acc p =>
          (if p.2 > acc.1 then p.2 else acc.1,
           if p.1 = playerName ∧ p.2 > acc.2 then p.2 else acc.2))
        (a, b)).1
        = (pairs.map Prod.snd).foldl max a := by
  induction pairs with
  | nil => intro a b; rfl
  | cons p rest ih =>
    intro a b
    simp only [List.foldl_cons, List.map_cons]
    rw [ih, ite_gt_eq_max]

/-- Helper: the personal component of the fold is a running maximum over the
pairs whose name matches the player. -/
theorem loadHighestScores_snd (pairs : List (String × Int)) (playerName : String) :
    ∀ a b : Int,
      (pairs.foldl
        (fun acc p =>
          (if p.2 > acc.1 then p.2 else acc.1,
           if p.1 = playerName ∧ p.2 > acc.2 then p.2 else acc.2))
        (a, b)).2
        = ((pairs.filter (fun p => p.1 = playerName)).map Prod.snd).foldl max b := by
  induction pairs with
  | nil => intro a b; rfl
  | cons p rest ih =>
    intro a b
    simp only [List.foldl_cons]
    rw [ih]
    by_cases hname : p.1 = playerName
    · have hfilter : (p :: rest).filter (fun q => q.1 = playerName)
          = p :: rest.filter (fun q => q.1 = playerName) := by
        simp [List.filter_cons, hname]
      rw [hfilter, List.map_cons, List.foldl_cons]
      simp only [hname, eq_self_iff_true, true_and]
      rw [ite_gt_eq_max]
    · have hfilter : (p :: rest).filter (fun q => q.1 = playerName)
          = rest.filter (fun q => q.1 = playerName) := by
        simp [List.filter_cons, hname]
      rw [hfilter]
      simp [hname]

/-- C7: `loadHighestScores` computes the maximum (floored at 0) over all
scores in the file for the global high score, and the maximum (floored at 0)
over the scores recorded under the active player's name for the personal
best; duplicate names therefore yield the per-name maximum, e.g.
`[(x,10),(x,20)]` yields 20 for `x`, and a missing (empty) file yields
`(0, 0)`. -/
theorem loadHighestScores_spec (pairs : List (String × Int)) (playerName : String) :
    (loadHighestScores pairs playerName).1 = (pairs.map Prod.snd).foldl max 0
    ∧ (loadHighestScores pairs playerName).2
        = ((pairs.filter (fun p => p.1 = playerName)).map Prod.snd).foldl max 0
    ∧ loadHighestScores [] playerName = (0, 0)
    ∧ (loadHighestScores [(("x" : String), (10 : Int)), ("x", 20)] "x").2 = 20 :=
  ⟨loadHighestScores_fst pairs playerName 0 0,
   loadHighestScores_snd pairs playerName 0 0, rfl, by decide⟩

/-- Cell lies inside the playing grid `[0, GRID_WIDTH) × [0, GRID_HEIGHT)`. -/
def inBounds (p : Position) : Prop :=
  0 ≤ p.x ∧ p.x < GRID_WIDTH ∧ 0 ≤ p.y ∧ p.y < GRID_HEIGHT

instance (p : Position) : Decidable (inBounds p) := by
  unfold inBounds
  infer_instance

/-- Loop of `Game::loadObstacles` (game.cpp lines 442-453). The file is a
stream of whitespace-separated tokens; each token either parses as an `int`
(`some x`) or is malformed (`Option.none`). `while (file >> x >> y && obstacles.size()
< MAX_OBSTACLES)` first extracts two ints — a malformed token puts the stream
in a fail state, which terminates the loop — then checks the obstacle count;
in-bounds pairs are appended, out-of-bounds pairs are dropped and the loop
continues. -/
def loadObstaclesGo : List (Option Int) → List Position → List Position
  | some x :: some y :: rest, acc =>
    if acc.length < MAX_OBSTACLES then
      if 0 ≤ x ∧ x < GRID_WIDTH ∧ 0 ≤ y ∧ y < GRID_HEIGHT then
        loadObstaclesGo rest (acc ++ [⟨x, y⟩])
      else
        loadObstaclesGo rest acc
    else acc
  | _, acc => acc

/-- `Game::loadObstacles` on an opened file with the given token stream
(`obstacles.clear()` then the read loop); a missing file is the empty list. -/
def loadObstacles (tokens : List (Option Int)) : List Position :=
  loadObstaclesGo tokens []

/-- Modelled from the spec: the claim's reading of `loadObstacles`, in which a
malformed (unparsable) record is skipped and loading continues with subsequent
records; the bounds filter and the obstacle cap are as in the source. This is
what `Game::loadObstacles` does NOT do (stream extraction stops on a malformed
token); it exists to state the counterexample for C4. -/
def loadObstaclesSkipMalformed : List (Option Int) → List Position → List Position
  | t1 :: t2 :: rest, acc =>
    if acc.length < MAX_OBSTACLES then
      match t1, t2 with
      | some x, some y =>
        if 0 ≤ x ∧ x < GRID_WIDTH ∧ 0 ≤ y ∧ y < GRID_HEIGHT then
          loadObstaclesSkipMalformed rest (acc ++ [⟨x, y⟩])
        else
          loadObstaclesSkipMalformed rest acc
      | _, _ => loadObstaclesSkipMalformed rest acc
    else acc
  | _, acc => acc

/-- Counterexample for C4: on the token stream `<malformed> <malformed> 1 2`
the code stops at the malformed record and loads no obstacle at all, while
the claim's skip-and-continue reading would load `(1, 2)`. -/
theorem loadObstacles_cex :
    loadObstacles [Option.none, Option.none, some 1, some 2] = []
    ∧ loadObstaclesSkipMalformed [Option.none, Option.none, some 1, some 2] [] = [⟨1, 2⟩] := by
  constructor <;> rfl

/-- Helper: the loop never grows the obstacle list beyond `MAX_OBSTACLES`. -/
theorem loadObstaclesGo_length : ∀ (ts : List (Option Int)) (acc : List Position),
    acc.length ≤ MAX_OBSTACLES → (loadObstaclesGo ts acc).length ≤ MAX_OBSTACLES
  | [], _, h => h
  | Option.none :: _, _, h => h
  | some _ :: [], _, h => h
  | some _ :: Option.none :: _, _, h => h
  | some x :: some y :: rest, acc, h => by
    simp only [loadObstaclesGo]
    split_ifs with h1 h2
    · exact loadObstaclesGo_length rest _ (by simp; omega)
    · exact loadObstaclesGo_length rest acc h
    · exact h

/-- Helper: every obstacle the loop retains is inside the grid (assuming the
accumulator only holds in-bounds cells). -/
theorem loadObstaclesGo_inBounds : ∀ (ts : List (Option Int)) (acc : List Position),
    (∀ p ∈ acc, inBounds p) → ∀ p ∈ loadObstaclesGo ts acc, inBounds p
  | [], _, h => h
  | Option.none :: _, _, h => h
  | some _ :: [], _, h => h
  | some _ :: Option.none :: _, _, h => h
  | some x :: some y :: rest, acc, h => by
    simp only [loadObstaclesGo]
    split_ifs with h1 h2
    · refine loadObstaclesGo_inBounds rest _ ?_
      intro p hp
      rcases List.mem_append.mp hp with hp | hp
      · exact h p hp
      · simp only [List.mem_singleton] at hp
        subst hp
        exact h2
    · exact loadObstaclesGo_inBounds rest acc h
    · exact h

/-- C4 (amended): a malformed token stops obstacle loading entirely (the
obstacles read so far are kept); an out-of-bounds pair is skipped and loading
continues; loading stops once `MAX_OBSTACLES` (100) obstacles are held; and
every retained obstacle lies within `[0, 30) × [0, 20)`. -/
theorem loadObstacles_amended :
    (∀ (rest : List (Option Int)) (acc : List Position),
      loadObstaclesGo (Option.none :: rest) acc = acc)
    ∧ (∀ (x : Int) (rest : List (Option Int)) (acc : List Position),
      loadObstaclesGo (some x :: Option.none :: rest) acc = acc)
    ∧ (∀ (x y : Int) (rest : List (Option Int)) (acc : List Position),
      acc.length < MAX_OBSTACLES →
      ¬(0 ≤ x ∧ x < GRID_WIDTH ∧ 0 ≤ y ∧ y < GRID_HEIGHT) →
      loadObstaclesGo (some x :: some y :: rest) acc = loadObstaclesGo rest acc)
    ∧ (∀ (x y : Int) (rest : List (Option Int)) (acc : List Position),
      ¬acc.length < MAX_OBSTACLES →
      loadObstaclesGo (some x :: some y :: rest) acc = acc)
    ∧ (∀ ts : List (Option Int), (loadObstacles ts).length ≤ MAX_OBSTACLES)
    ∧ (∀ ts : List (Option Int), ∀ p ∈ loadObstacles ts, inBounds p) := by
  refine ⟨fun rest acc => rfl, fun x rest acc => rfl, fun x y rest acc h1 h2 => ?_,
    fun x y rest acc h1 => ?_, fun ts => ?_, fun ts => ?_⟩
  · simp [loadObstaclesGo, h1, h2]
  · simp [loadObstaclesGo, h1]
  · exact loadObstaclesGo_length ts [] (by simp [MAX_OBSTACLES])
  · exact loadObstaclesGo_inBounds ts [] (by simp)

/-- Witness for C4 (amended) at concrete inputs: a malformed head token, an
out-of-bounds pair `(50, 0)`, a full accumulator of 100 obstacles, and the
in-bounds obstacle `(1, 2)` retained from the stream `1 2`. -/
theorem loadObstacles_amended_witness :
    loadObstaclesGo [Option.none, some 3] [] = []
    ∧ loadObstaclesGo [some 50, some 0, some 1, some 2] []
        = loadObstaclesGo [some 1, some 2] []
    ∧ loadObstaclesGo [some 1, some 2] (List.replicate 100 ⟨0, 0⟩)
        = List.replicate 100 ⟨0, 0⟩
    ∧ (loadObstacles [some 1, some 2]).length ≤ MAX_OBSTACLES
    ∧ inBounds ⟨1, 2⟩ :=
  ⟨loadObstacles_amended.1 [some 3] [],
   loadObstacles_amended.2.2.1 50 0 [some 1, some 2] [] (by decide) (by decide),
   loadObstacles_amended.2.2.2.1 1 2 [] (List.replicate 100 ⟨0, 0⟩)
     (by simp [MAX_OBSTACLES]),
   loadObstacles_amended.2.2.2.2.1 [some 1, some 2],
   loadObstacles_amended.2.2.2.2.2 [some 1, some 2] ⟨1, 2⟩ (by decide)⟩

/-- Candidate list of `Game::generateFood` (game.cpp lines 402-414): the
double loop `for x in [0, GRID_WIDTH) { for y in [0, GRID_HEIGHT) ... }`
collecting every cell occupied by no snake segment and no obstacle. -/
def emptyCells (snake obstacles : List Position) : List Position :=
  (List.range GRID_WIDTH.toNat).flatMap (fun (x : Nat) =>
    (List.range GRID_HEIGHT.toNat).filterMap (fun (y : Nat) =>
      if (⟨(x : Int), (y : Int)⟩ : Position) ∈ snake then Option.none
      else if (⟨(x : Int), (y : Int)⟩ : Position) ∈ obstacles then Option.none
      else some ⟨(x : Int), (y : Int)⟩))

/-- `Game::generateFood` (game.cpp lines 402-418): pick
`emptyPositions[rand() % emptyPositions.size()]` when the candidate list is
non-empty, leave the food unchanged otherwise. The `rand()` draw is the
explicit parameter `r`. -/
def generateFood (snake obstacles : List Position) (food : Position) (r : Nat) : Position :=
  let empties := emptyCells snake obstacles
  if empties.isEmpty then food
  else empties.getD (r % empties.length) food

/-- Helper: a cell is a food candidate iff it is on the grid and occupied by
no snake segment and no obstacle. -/
theorem mem_emptyCells (snake obstacles : List Position) (p : Position) :
    p ∈ emptyCells snake obstacles ↔ inBounds p ∧ p ∉ snake ∧ p ∉ obstacles := by
  obtain ⟨px, py⟩ := p
  have hW : GRID_WIDTH.toNat = 30 := rfl
  have hH : GRID_HEIGHT.toNat = 20 := rfl
  have hWi : GRID_WIDTH = (30 : Int) := rfl
  have hHi : GRID_HEIGHT = (20 : Int) := rfl
  simp only [emptyCells, List.mem_flatMap, List.mem_filterMap, List.mem_range, inBounds]
  constructor
  · rintro ⟨x, hx, y, hy, hsome⟩
    by_cases h1 : (⟨(x : Int), (y : Int)⟩ : Position) ∈ snake
    · rw [if_pos h1] at hsome
      exact absurd hsome (by simp)
    by_cases h2 : (⟨(x : Int), (y : Int)⟩ : Position) ∈ obstacles
    · rw [if_neg h1, if_pos h2] at hsome
      exact absurd hsome (by simp)
    rw [if_neg h1, if_neg h2] at hsome
    have hp := Option.some.inj hsome
    injection hp with hpx hpy
    subst hpx
    subst hpy
    exact ⟨⟨by omega, by omega, by omega, by omega⟩, h1, h2⟩
  · rintro ⟨⟨hx0, hxw, hy0, hyh⟩, hs, ho⟩
    refine ⟨px.toNat, by omega, py.toNat, by omega, ?_⟩
    have hx : ((px.toNat : Nat) : Int) = px := Int.toNat_of_nonneg hx0
    have hy : ((py.toNat : Nat) : Int) = py := Int.toNat_of_nonneg hy0
    rw [hx, hy, if_neg hs, if_neg ho]

/-- C9: `generateFood` never selects from an empty candidate list — on a full
board (every grid cell occupied by a snake segment or an obstacle) the food
position is left unchanged — and whenever at least one empty cell exists, the
chosen food cell coincides with no snake segment and no obstacle. -/
theorem generateFood_safe (snake obstacles : List Position) (food : Position) (r : Nat) :
    ((∀ q : Position, inBounds q → q ∈ snake ∨ q ∈ obstacles) →
      generateFood snake obstacles food r = food)
    ∧ ((∃ q : Position, inBounds q ∧ q ∉ snake ∧ q ∉ obstacles) →
      generateFood snake obstacles food r ∉ snake
        ∧ generateFood snake obstacles food r ∉ obstacles) := by
  constructor
  · intro hfull
    have hempty : emptyCells snake obstacles = [] := by
      refine List.eq_nil_iff_forall_not_mem.mpr fun q hq => ?_
      rcases (mem_emptyCells snake obstacles q).mp hq with ⟨hb, hs, ho⟩
      rcases hfull q hb with h | h
      · exact hs h
      · exact ho h
    simp [generateFood, hempty]
  · rintro ⟨q, hb, hs, ho⟩
    have hqmem : q ∈ emptyCells snake obstacles :=
      (mem_emptyCells snake obstacles q).mpr ⟨hb, hs, ho⟩
    have hne : emptyCells snake obstacles ≠ [] := by
      intro h
      rw [h] at hqmem
      exact List.not_mem_nil q hqmem
    have hlen : 0 < (emptyCells snake obstacles).length := List.length_pos.mpr hne
    have hidx : r % (emptyCells snake obstacles).length
        < (emptyCells snake obstacles).length := Nat.mod_lt r hlen
    have hres : generateFood snake obstacles food r ∈ emptyCells snake obstacles := by
      simp only [generateFood]
      rw [if_neg (by simpa [List.isEmpty_iff] using hne)]
      rw [List.getD_eq_getElem _ _ hidx]
      exact List.getElem_mem hidx
    rcases (mem_emptyCells snake obstacles _).mp hres with ⟨_, hs2, ho2⟩
    exact ⟨hs2, ho2⟩

/-- Every cell of the 30 × 20 grid, used to build a full board for the C9
witness. -/
def allCells : List Position :=
  (List.range GRID_WIDTH.toNat).flatMap (fun (x : Nat) =>
    (List.range GRID_HEIGHT.toNat).map (fun (y : Nat) => ⟨(x : Int), (y : Int)⟩))

/-- Helper: every in-bounds cell is in `allCells`. -/
theorem mem_allCells (p : Position) (hb : inBounds p) : p ∈ allCells := by
  obtain ⟨px, py⟩ := p
  obtain ⟨hx0, hxw, hy0, hyh⟩ := hb
  dsimp only at hx0 hxw hy0 hyh
  have hW : GRID_WIDTH.toNat = 30 := rfl
  have hH : GRID_HEIGHT.toNat = 20 := rfl
  have hWi : GRID_WIDTH = (30 : Int) := rfl
  have hHi : GRID_HEIGHT = (20 : Int) := rfl
  simp only [allCells, List.mem_flatMap, List.mem_map, List.mem_range]
  refine ⟨px.toNat, by omega, py.toNat, by omega, ?_⟩
  have hx : ((px.toNat : Nat) : Int) = px := Int.toNat_of_nonneg hx0
  have hy : ((py.toNat : Nat) : Int) = py := Int.toNat_of_nonneg hy0
  rw [hx, hy]

/-- Witness for C9: on a board whose every cell is an obstacle the food stays
at `(7, 7)`; on a nearly empty board the generated food avoids the snake cell
`(0, 0)` and the (empty) obstacle list. -/
theorem generateFood_safe_witness :
    generateFood [] allCells ⟨7, 7⟩ 5 = ⟨7, 7⟩
    ∧ generateFood [⟨0, 0⟩] [] ⟨0, 0⟩ 3 ∉ [(⟨0, 0⟩ : Position)]
    ∧ generateFood [⟨0, 0⟩] [] ⟨0, 0⟩ 3 ∉ ([] : List Position) :=
  ⟨(generateFood_safe [] allCells ⟨7, 7⟩ 5).1 (fun q hq => Or.inr (mem_allCells q hq)),
   ((generateFood_safe [⟨0, 0⟩] [] ⟨0, 0⟩ 3).2
      ⟨⟨1, 1⟩, by decide, by decide, by decide⟩).1,
   ((generateFood_safe [⟨0, 0⟩] [] ⟨0, 0⟩ 3).2
      ⟨⟨1, 1⟩, by decide, by decide, by decide⟩).2⟩

/-- Mirrors `struct ScoreEntry` (game.hpp lines 24-30). -/
structure ScoreEntry where
  name : String
  score : Int
deriving DecidableEq

/-- The order induced by `ScoreEntry::operator<` (game.hpp line 27:
`score > other.score`): sorting with it puts scores in descending order. The
relation is the comparator's reflexive total closure, under which a list is
sorted exactly when its scores are non-increasing. -/
def entryOrder (a b : ScoreEntry) : Prop := b.score ≤ a.score

instance : DecidableRel entryOrder :=
  fun a b => inferInstanceAs (Decidable (b.score ≤ a.score))

instance : IsTotal ScoreEntry entryOrder :=
  ⟨fun a b => le_total b.score a.score⟩

instance : IsTrans ScoreEntry entryOrder :=
  ⟨fun _ _ _ hab hbc => le_trans hbc hab⟩

/-- Model of `std::sort(leaderboard.begin(), leaderboard.end())` under
`ScoreEntry::operator<`. -/
def sortEntries (l : List ScoreEntry) : List ScoreEntry :=
  List.insertionSort entryOrder l

/-- Helper: `sortEntries` output has non-increasing scores. -/
theorem sortEntries_sorted (l : List ScoreEntry) :
    List.Sorted entryOrder (sortEntries l) :=
  List.sorted_insertionSort entryOrder l

/-- Helper: `sortEntries` permutes its input. -/
theorem sortEntries_perm (l : List ScoreEntry) : List.Perm (sortEntries l) l :=
  List.perm_insertionSort entryOrder l

/-- First-match score lookup by player name, as the linear scan of
`Game::saveToLeaderboard` performs it. -/
def lookupScore (name : String) : List ScoreEntry → Option Int
  | [] => Option.none
  | e :: rest => if e.name = name then some e.score else lookupScore name rest

/-- Merge an existing (optional) score with a new one, keeping the higher. -/
def maxWith : Option Int → Int → Int
  | Option.none, v => v
  | some w, v => max w v

/-- Upsert loop of `Game::saveToLeaderboard` (game.cpp lines 551-564): the
first entry carrying the player's name is raised to the new score when that
is higher (`if (score > entry.score) entry.score = score`), and when no entry
carries the name, `{playerName, score}` is appended at the back. -/
def upsertScore (name : String) (sc : Int) : List ScoreEntry → List ScoreEntry
  | [] => [⟨name, sc⟩]
  | e :: rest =>
    if e.name = name then ⟨e.name, if sc > e.score then sc else e.score⟩ :: rest
    else e :: upsertScore name sc rest

/-- `Game::saveToLeaderboard` (game.cpp lines 549-578) as a function on the
in-memory leaderboard: for a positive score, upsert the player's entry, sort
by descending score, and truncate (`resize`) to `MAX_LEADERBOARD_ENTRIES`
when longer; the result is also exactly what is rewritten to `scores.txt`.
For a non-positive score nothing happens. -/
def saveToLeaderboardList (lb : List ScoreEntry) (name : String) (sc : Int) :
    List ScoreEntry :=
  if sc > 0 then
    let sorted := sortEntries (upsertScore name sc lb)
    if sorted.length > MAX_LEADERBOARD_ENTRIES then sorted.take MAX_LEADERBOARD_ENTRIES
    else sorted
  else lb

/-- Helper: upserting updates the first matching entry to the maximum of old
and new score, and records the new score when the player is absent. -/
theorem lookupScore_upsert (name : String) (sc : Int) : ∀ lb : List ScoreEntry,
    lookupScore name (upsertScore name sc lb) = some (maxWith (lookupScore name lb) sc)
  | [] => by simp [upsertScore, lookupScore, maxWith]
  | e :: rest => by
    by_cases h : e.name = name
    · simp only [upsertScore, if_pos h, lookupScore, maxWith]
      exact congrArg some (ite_gt_eq_max e.score sc)
    · simp only [upsertScore, if_neg h, lookupScore]
      exact lookupScore_upsert name sc rest

/-- C6: for every positive score, `saveToLeaderboard` upserts the current
player's entry keeping the higher of the existing and the new score (so a
lower score leaves the stored entry unchanged and a higher one replaces it),
re-sorts descending by score, truncates to the top `MAX_LEADERBOARD_ENTRIES`
(10), and rewrites the leaderboard store in its entirety with exactly the
resulting list. -/
theorem saveToLeaderboard_spec (lb : List ScoreEntry) (name : String) (sc : Int)
    (hpos : 0 < sc) :
    saveToLeaderboardList lb name sc
        = (sortEntries (upsertScore name sc lb)).take MAX_LEADERBOARD_ENTRIES
    ∧ lookupScore name (upsertScore name sc lb)
        = some (maxWith (lookupScore name lb) sc)
    ∧ List.Sorted entryOrder (saveToLeaderboardList lb name sc)
    ∧ (saveToLeaderboardList lb name sc).length ≤ MAX_LEADERBOARD_ENTRIES := by
  have heq : saveToLeaderboardList lb name sc
      = (sortEntries (upsertScore name sc lb)).take MAX_LEADERBOARD_ENTRIES := by
    simp only [saveToLeaderboardList, if_pos hpos]
    split_ifs with h
    · rfl
    · rw [List.take_of_length_le (by omega)]
  refine ⟨heq, lookupScore_upsert name sc lb, ?_, ?_⟩
  · rw [heq]
    exact List.Pairwise.sublist (List.take_sublist _ _)
      (sortEntries_sorted (upsertScore name sc lb))
  · rw [heq, List.length_take]
    omega

/-- Witness for C6 at the spec's own example: leaderboard `[(a,50),(b,30)]`
and a new score of 60 for player `a`. -/
theorem saveToLeaderboard_spec_witness :
    (0 : Int) < 60
    ∧ lookupScore "a" (upsertScore "a" 60 [⟨"a", 50⟩, ⟨"b", 30⟩])
        = some (maxWith (lookupScore "a" [⟨"a", 50⟩, ⟨"b", 30⟩]) 60)
    ∧ List.Sorted entryOrder (saveToLeaderboardList [⟨"a", 50⟩, ⟨"b", 30⟩] "a" 60)
    ∧ (saveToLeaderboardList [⟨"a", 50⟩, ⟨"b", 30⟩] "a" 60).length
        ≤ MAX_LEADERBOARD_ENTRIES :=
  ⟨by decide,
   (saveToLeaderboard_spec [⟨"a", 50⟩, ⟨"b", 30⟩] "a" 60 (by decide)).2.1,
   (saveToLeaderboard_spec [⟨"a", 50⟩, ⟨"b", 30⟩] "a" 60 (by decide)).2.2.1,
   (saveToLeaderboard_spec [⟨"a", 50⟩, ⟨"b", 30⟩] "a" 60 (by decide)).2.2.2⟩

/-- Lexicographic order on character lists, mirroring the
`std::string::operator<` comparison that orders the keys of
`std::map<std::string, int>`. -/
def charListLt : List Char → List Char → Bool
  | [], [] => false
  | [], _ :: _ => true
  | _ :: _, [] => false
  | c :: cs, d :: ds =>
    if c < d then true
    else if d < c then false
    else charListLt cs ds

/-- String comparison as key order of `std::map<std::string, int>`. -/
def strLt (a b : String) : Bool := charListLt a.data b.data

/-- Helper: the lexicographic order is irreflexive. -/
theorem charListLt_irrefl : ∀ cs : List Char, charListLt cs cs = false
  | [] => rfl
  | c :: cs => by simp [charListLt, lt_irrefl, charListLt_irrefl cs]

/-- Helper: the lexicographic order is transitive. -/
theorem charListLt_trans : ∀ as2 bs cs : List Char,
    charListLt as2 bs = true → charListLt bs cs = true → charListLt as2 cs = true
  | [], [], _, h1, _ => by simp [charListLt] at h1
  | [], _ :: _, [], _, h2 => by simp [charListLt] at h2
  | [], _ :: _, _ :: _, _, _ => rfl
  | _ :: _, [], _, h1, _ => by simp [charListLt] at h1
  | _ :: _, _ :: _, [], _, h2 => by simp [charListLt] at h2
  | a :: as2, b :: bs, c :: cs, h1, h2 => by
    simp only [charListLt] at h1 h2 ⊢
    by_cases hab : a < b
    · by_cases hbc : b < c
      · simp [lt_trans hab hbc]
      · by_cases hcb : c < b
        · rw [if_neg hbc, if_pos hcb] at h2
          cases h2
        · have hbceq : b = c := le_antisymm (le_of_not_lt hcb) (le_of_not_lt hbc)
          subst hbceq
          simp [hab]
    · by_cases hba : b < a
      · rw [if_neg hab, if_pos hba] at h1
        cases h1
      · have habeq : a = b := le_antisymm (le_of_not_lt hba) (le_of_not_lt hab)
        subst habeq
        rw [if_neg hab, if_neg hba] at h1
        by_cases hac : a < c
        · simp [hac]
        · by_cases hca : c < a
          · rw [if_neg hac, if_pos hca] at h2
            cases h2
          · rw [if_neg hac, if_neg hca] at h2 ⊢
            exact charListLt_trans as2 bs cs h1 h2

/-- Helper: distinct character lists are comparable. -/
theorem charListLt_total : ∀ as2 bs : List Char,
    as2 ≠ bs → charListLt as2 bs = true ∨ charListLt bs as2 = true
  | [], [], h => absurd rfl h
  | [], _ :: _, _ => Or.inl rfl
  | _ :: _, [], _ => Or.inr rfl
  | a :: as2, b :: bs, h => by
    by_cases hab : a < b
    · exact Or.inl (by simp [charListLt, hab])
    by_cases hba : b < a
    · exact Or.inr (by simp [charListLt, hba])
    have habeq : a = b := le_antisymm (le_of_not_lt hba) (le_of_not_lt hab)
    subst habeq
    have hne : as2 ≠ bs := fun hh => h (by rw [hh])
    rcases charListLt_total as2 bs hne with h1 | h1
    · exact Or.inl (by simp [charListLt, lt_irrefl, h1])
    · exact Or.inr (by simp [charListLt, lt_irrefl, h1])

/-- Helper: `strLt` is irreflexive, so comparable strings are distinct. -/
theorem strLt_ne {a b : String} (h : strLt a b = true) : a ≠ b := by
  intro heq
  subst heq
  rw [strLt, charListLt_irrefl] at h
  cases h

/-- Helper: `strLt` is transitive. -/
theorem strLt_trans {a b c : String} (h1 : strLt a b = true) (h2 : strLt b c = true) :
    strLt a c = true :=
  charListLt_trans a.data b.data c.data h1 h2

/-- Helper: distinct strings are comparable by `strLt`. -/
theorem strLt_total {a b : String} (h : a ≠ b) :
    strLt a b = true ∨ strLt b a = true :=
  charListLt_total a.data b.data (fun hd => h (String.ext hd))

/-- Ordered insertion into the `std::map<std::string, int> bestScores` of
`Game::loadLeaderboard` (game.cpp lines 528-538): keys are held in ascending
name order, and `if (find == end || scoreVal > bestScores[name])` keeps the
maximum score per name. -/
def bestInsert (k : String) (v : Int) : List (String × Int) → List (String × Int)
  | [] => [(k, v)]
  | (k2, v2) :: rest =>
    if k = k2 then (k2, if v > v2 then v else v2) :: rest
    else if strLt k k2 then (k, v) :: (k2, v2) :: rest
    else (k2, v2) :: bestInsert k v rest

/-- The `bestScores` map after merging all pairs of `scores.txt`. -/
def buildBestScores (pairs : List (String × Int)) : List (String × Int) :=
  pairs.foldl (fun m p => bestInsert p.1 p.2 m) []

/-- `Game::loadLeaderboard` (game.cpp lines 526-546): clear, merge the file's
`name score` pairs keeping the per-name maximum, emit the map's entries in
ascending name order as `std::map` iteration does, then
`std::sort` descending by score. No truncation happens here. A missing file
is the empty pair list and leaves the leaderboard empty. -/
def loadLeaderboardList (pairs : List (String × Int)) : List ScoreEntry :=
  sortEntries ((buildBestScores pairs).map (fun p => ⟨p.1, p.2⟩))

/-- First-match lookup in the association-list model of the map. -/
def mapLookup (k : String) : List (String × Int) → Option Int
  | [] => Option.none
  | p :: rest => if p.1 = k then some p.2 else mapLookup k rest

/-- The maximum score the file records under a given name (`Option.none` when the
name never occurs). -/
def bestOf (k : String) (pairs : List (String × Int)) : Option Int :=
  pairs.foldl (fun acc p => if p.1 = k then some (maxWith acc p.2) else acc) Option.none

/-- Keys strictly ascend along the association list, as in a `std::map`. -/
def SortedKeys (m : List (String × Int)) : Prop :=
  List.Pairwise (fun a b => strLt a.1 b.1 = true) m

/-- Helper: every key of `bestInsert k v m` is `k` or a key of `m`. -/
theorem bestInsert_keys (k : String) (v : Int) : ∀ m : List (String × Int),
    ∀ p ∈ bestInsert k v m, p.1 = k ∨ ∃ q ∈ m, p.1 = q.1
  | [] => by
    intro p hp
    simp only [bestInsert, List.mem_singleton] at hp
    subst hp
    exact Or.inl rfl
  | (k2, v2) :: rest => by
    intro p hp
    simp only [bestInsert] at hp
    by_cases h1 : k = k2
    · rw [if_pos h1] at hp
      rcases List.mem_cons.mp hp with hp | hp
      · subst hp
        exact Or.inr ⟨(k2, v2), List.mem_cons_self _ _, rfl⟩
      · exact Or.inr ⟨p, List.mem_cons_of_mem _ hp, rfl⟩
    · rw [if_neg h1] at hp
      by_cases h2 : strLt k k2 = true
      · rw [if_pos h2] at hp
        rcases List.mem_cons.mp hp with hp | hp
        · subst hp
          exact Or.inl rfl
        · exact Or.inr ⟨p, hp, rfl⟩
      · rw [if_neg h2] at hp
        rcases List.mem_cons.mp hp with hp | hp
        · subst hp
          exact Or.inr ⟨(k2, v2), List.mem_cons_self _ _, rfl⟩
        · rcases bestInsert_keys k v rest p hp with h | ⟨q, hq, hpq⟩
          · exact Or.inl h
          · exact Or.inr ⟨q, List.mem_cons_of_mem _ hq, hpq⟩

/-- Helper: `bestInsert` preserves the ascending-key invariant. -/
theorem bestInsert_sortedKeys (k : String) (v : Int) : ∀ m : List (String × Int),
    SortedKeys m → SortedKeys (bestInsert k v m)
  | [] => by
    intro
    simp [bestInsert, SortedKeys]
  | (k2, v2) :: rest => by
    intro hm
    simp only [SortedKeys] at hm ⊢
    obtain ⟨hhead, hrest⟩ := List.pairwise_cons.mp hm
    simp only [bestInsert]
    by_cases h1 : k = k2
    · rw [if_pos h1]
      exact List.pairwise_cons.mpr ⟨hhead, hrest⟩
    · rw [if_neg h1]
      by_cases h2 : strLt k k2 = true
      · rw [if_pos h2]
        refine List.pairwise_cons.mpr ⟨?_, List.pairwise_cons.mpr ⟨hhead, hrest⟩⟩
        intro p hp
        rcases List.mem_cons.mp hp with hp | hp
        · subst hp
          exact h2
        · exact strLt_trans h2 (hhead p hp)
      · rw [if_neg h2]
        have hk2 : strLt k2 k = true := by
          rcases strLt_total h1 with h | h
          · exact absurd h h2
          · exact h
        have hins : SortedKeys (bestInsert k v rest) :=
          bestInsert_sortedKeys k v rest hrest
        simp only [SortedKeys] at hins
        refine List.pairwise_cons.mpr ⟨?_, hins⟩
        intro p hp
        rcases bestInsert_keys k v rest p hp with h | ⟨q, hq, hpq⟩
        · rw [h]
          exact hk2
        · rw [hpq]
          exact hhead q hq

/-- Helper: lookup misses when no key matches. -/
theorem mapLookup_eq_none (k : String) : ∀ m : List (String × Int),
    (∀ p ∈ m, p.1 ≠ k) → mapLookup k m = Option.none
  | [] => fun _ => rfl
  | p :: rest => fun h => by
    simp only [mapLookup]
    rw [if_neg (h p (List.mem_cons_self _ _))]
    exact mapLookup_eq_none k rest (fun q hq => h q (List.mem_cons_of_mem _ hq))

/-- Helper: inserting under key `k` sets that key to the maximum of the old
and the new value. -/
theorem mapLookup_bestInsert_self (k : String) (v : Int) : ∀ m : List (String × Int),
    SortedKeys m → mapLookup k (bestInsert k v m) = some (maxWith (mapLookup k m) v)
  | [] => fun _ => by simp [bestInsert, mapLookup, maxWith]
  | (k2, v2) :: rest => fun hm => by
    have hm2 : List.Pairwise (fun a b : String × Int => strLt a.1 b.1 = true)
        ((k2, v2) :: rest) := hm
    obtain ⟨hhead, hrest⟩ := List.pairwise_cons.mp hm2
    simp only [bestInsert]
    by_cases h1 : k = k2
    · rw [if_pos h1]
      subst h1
      simp only [mapLookup, maxWith, ite_gt_eq_max]
      simp
    · rw [if_neg h1]
      have hk2k : ¬(k2 = k) := fun hh => h1 hh.symm
      by_cases h2 : strLt k k2 = true
      · rw [if_pos h2]
        have hnone : mapLookup k rest = Option.none := by
          refine mapLookup_eq_none k rest (fun q hq hqk => ?_)
          exact strLt_ne (strLt_trans h2 (hhead q hq)) hqk.symm
        simp [mapLookup, hk2k, hnone, maxWith]
      · rw [if_neg h2]
        simp only [mapLookup]
        rw [if_neg hk2k, if_neg hk2k]
        exact mapLookup_bestInsert_self k v rest hrest

/-- Helper: inserting under key `k` leaves every other key's value alone. -/
theorem mapLookup_bestInsert_ne (k k2 : String) (v : Int) (hne : k ≠ k2) :
    ∀ m : List (String × Int), mapLookup k2 (bestInsert k v m) = mapLookup k2 m
  | [] => by simp [bestInsert, mapLookup, hne]
  | (k3, v3) :: rest => by
    simp only [bestInsert]
    by_cases h1 : k = k3
    · rw [if_pos h1]
      simp only [mapLookup]
      rw [if_neg (fun hh => hne (h1.trans hh)), if_neg (fun hh => hne (h1.trans hh))]
    · rw [if_neg h1]
      by_cases h2 : strLt k k3 = true
      · rw [if_pos h2]
        simp only [mapLookup]
        rw [if_neg (fun hh => hne hh)]
      · rw [if_neg h2]
        simp only [mapLookup]
        by_cases h3 : k3 = k2
        · rw [if_pos h3, if_pos h3]
        · rw [if_neg h3, if_neg h3]
          exact mapLookup_bestInsert_ne k k2 v hne rest

/-- Helper: folding `bestInsert` over the file keeps the map sorted. -/
theorem foldBest_sorted : ∀ (pairs : List (String × Int)) (m : List (String × Int)),
    SortedKeys m → SortedKeys (pairs.foldl (fun m2 p => bestInsert p.1 p.2 m2) m)
  | [], _, hm => hm
  | p :: rest, m, hm => by
    simp only [List.foldl_cons]
    exact foldBest_sorted rest _ (bestInsert_sortedKeys p.1 p.2 m hm)

/-- Helper: a key's value in the folded map is the running per-key maximum. -/
theorem foldBest_lookup (k : String) : ∀ (pairs : List (String × Int)) (m : List (String × Int)),
    SortedKeys m →
    mapLookup k (pairs.foldl (fun m2 p => bestInsert p.1 p.2 m2) m)
      = pairs.foldl (fun acc p => if p.1 = k then some (maxWith acc p.2) else acc)
          (mapLookup k m)
  | [], _, _ => rfl
  | p :: rest, m, hm => by
    simp only [List.foldl_cons]
    rw [foldBest_lookup k rest _ (bestInsert_sortedKeys p.1 p.2 m hm)]
    congr 1
    by_cases hk : p.1 = k
    · subst hk
      rw [if_pos rfl]
      exact mapLookup_bestInsert_self p.1 p.2 m hm
    · rw [if_neg hk]
      exact mapLookup_bestInsert_ne p.1 k p.2 hk m

/-- Helper: the merged map stores under each name exactly the per-name
maximum of the file. -/
theorem mapLookup_buildBest (k : String) (pairs : List (String × Int)) :
    mapLookup k (buildBestScores pairs) = bestOf k pairs := by
  rw [buildBestScores, foldBest_lookup k pairs [] (by simp [SortedKeys]), bestOf]
  rfl

/-- Helper: the `buildBestScores` map has sorted (hence distinct) keys. -/
theorem buildBest_sorted (pairs : List (String × Int)) :
    SortedKeys (buildBestScores pairs) :=
  foldBest_sorted pairs [] (by simp [SortedKeys])

/-- Helper: any pair held in a sorted map is found by lookup. -/
theorem mapLookup_of_mem : ∀ m : List (String × Int), SortedKeys m →
    ∀ p ∈ m, mapLookup p.1 m = some p.2
  | [], _, p, hp => absurd hp (List.not_mem_nil p)
  | q :: rest, hm, p, hp => by
    have hm2 : List.Pairwise (fun a b : String × Int => strLt a.1 b.1 = true)
        (q :: rest) := hm
    obtain ⟨hhead, hrest⟩ := List.pairwise_cons.mp hm2
    rcases List.mem_cons.mp hp with hp | hp
    · subst hp
      simp [mapLookup]
    · simp only [mapLookup]
      rw [if_neg (strLt_ne (hhead p hp))]
      exact mapLookup_of_mem rest hrest p hp

/-- Helper: a successful lookup certifies membership. -/
theorem mem_of_mapLookup (k : String) (w : Int) : ∀ m : List (String × Int),
    mapLookup k m = some w → (k, w) ∈ m
  | [] => fun h => by simp [mapLookup] at h
  | q :: rest => fun h => by
    simp only [mapLookup] at h
    by_cases hq : q.1 = k
    · rw [if_pos hq] at h
      obtain ⟨qk, qv⟩ := q
      obtain hw := Option.some.inj h
      dsimp only at hq hw
      subst hq
      subst hw
      exact List.mem_cons_self _ _
    · rw [if_neg hq] at h
      exact List.mem_cons_of_mem _ (mem_of_mapLookup k w rest h)

/-- Helper: the per-name maximum fold stays defined once defined. -/
theorem bestOf_from_some (k : String) (w : Int) : ∀ pairs : List (String × Int),
    ∃ w2, pairs.foldl (fun acc p => if p.1 = k then some (maxWith acc p.2) else acc)
      (some w) = some w2
  | [] => ⟨w, rfl⟩
  | p :: rest => by
    simp only [List.foldl_cons]
    by_cases hk : p.1 = k
    · rw [if_pos hk]
      exact bestOf_from_some k _ rest
    · rw [if_neg hk]
      exact bestOf_from_some k w rest

/-- Helper: a name occurring in the file has a per-name maximum. -/
theorem bestOf_of_mem (p : String × Int) :
    ∀ (pairs : List (String × Int)) (acc : Option Int), p ∈ pairs →
    ∃ w, pairs.foldl (fun acc2 q => if q.1 = p.1 then some (maxWith acc2 q.2) else acc2)
      acc = some w
  | [], _, hp => absurd hp (List.not_mem_nil p)
  | q :: rest, acc, hp => by
    simp only [List.foldl_cons]
    rcases List.mem_cons.mp hp with hpq | hp2
    · subst hpq
      rw [if_pos rfl]
      exact bestOf_from_some p.1 _ rest
    · by_cases hq : q.1 = p.1
      · rw [if_pos hq]
        exact bestOf_from_some p.1 _ rest
      · rw [if_neg hq]
        exact bestOf_of_mem p rest acc hp2

/-- Mirrors `enum class Direction` (game.hpp lines 32-34). -/
inductive Direction
  | UP
  | DOWN
  | LEFT
  | RIGHT
deriving DecidableEq

/-- The reversal the spec calls the opposite direction. -/
def oppositeDir : Direction → Direction
  | Direction.UP => Direction.DOWN
  | Direction.DOWN => Direction.UP
  | Direction.LEFT => Direction.RIGHT
  | Direction.RIGHT => Direction.LEFT

/-- Mirrors `enum class GameState` (game.hpp lines 36-43). -/
inductive GameState
  | MENU
  | PLAYING
  | PAUSED
  | GAME_OVER
  | LEADERBOARD
  | SETTINGS
deriving DecidableEq

/-- The mutable fields of `class Game` (game.hpp lines 61-84) that the core
logic reads or writes; the snake deque has its front at the list head. Timers
and rendering resources are not modelled. -/
structure GameS where
  currentState : GameState
  snake : List Position
  food : Position
  obstacles : List Position
  currentDirection : Direction
  nextDirection : Direction
  score : Int
  personalBestScore : Int
  overallHighestScore : Int
  playerName : String
  leaderboard : List ScoreEntry
  selectedMenuItem : Int
deriving DecidableEq

/-- `Game::initializeSnake` (game.cpp lines 392-399): three vertical segments
from the grid centre downwards, facing UP, with the direction buffer reset. -/
def initializeSnake (s : GameS) : GameS :=
  { s with
    snake := [⟨GRID_WIDTH / 2, GRID_HEIGHT / 2⟩,
              ⟨GRID_WIDTH / 2, GRID_HEIGHT / 2 + 1⟩,
              ⟨GRID_WIDTH / 2, GRID_HEIGHT / 2 + 2⟩],
    currentDirection := Direction.UP,
    nextDirection := Direction.UP }

/-- The one-cell head offset of `Game::moveSnake` (game.cpp lines 422-428). -/
def stepHead (p : Position) : Direction → Position
  | Direction.UP => ⟨p.x, p.y - 1⟩
  | Direction.DOWN => ⟨p.x, p.y + 1⟩
  | Direction.LEFT => ⟨p.x - 1, p.y⟩
  | Direction.RIGHT => ⟨p.x + 1, p.y⟩

/-- `Game::moveSnake` (game.cpp lines 421-430): prepend the offset front.
`snake.front()` presumes a non-empty snake (an invariant of the program); an
empty snake is left unchanged here. -/
def moveSnake (s : GameS) : GameS :=
  match s.snake with
  | [] => s
  | h :: t => { s with snake := stepHead h s.currentDirection :: h :: t }

/-- `Game::changeState` (game.cpp lines 597-603): set the state, reset the
menu selection, and on entering LEADERBOARD reload the leaderboard from the
current contents of `scores.txt` (the parameter `scoresFile`). -/
def changeState (s : GameS) (newState : GameState)
    (scoresFile : List (String × Int)) : GameS :=
  { s with
    currentState := newState,
    selectedMenuItem := 0,
    leaderboard :=
      if newState = GameState.LEADERBOARD then loadLeaderboardList scoresFile
      else s.leaderboard }

/-- In-memory effect of `Game::savePersonalBest` (game.cpp lines 475-501):
when the session score beats the stored personal best, the personal best and
(when also beaten) the overall highest score are raised; the rewrite of
`user_scores.txt` changes nothing else in memory. -/
def savePersonalBest (s : GameS) : GameS :=
  if s.score ≤ s.personalBestScore then s
  else
    { s with
      personalBestScore := s.score,
      overallHighestScore :=
        if s.score > s.overallHighestScore then s.score
        else s.overallHighestScore }

/-- `Game::saveToLeaderboard` acting on the whole game state. -/
def saveToLeaderboard (s : GameS) : GameS :=
  { s with leaderboard := saveToLeaderboardList s.leaderboard s.playerName s.score }

/-- The movement-tick body of `Game::update` (game.cpp lines 146-164), run
when the accumulated frame time reaches the speed interval: commit the
buffered direction, move the snake, then either save scores and enter
GAME_OVER on collision, grow and rescore and regenerate food when the new
head is on the food, or drop the tail. `r` is the `rand()` draw a food
regeneration would use, `scoresFile` the `scores.txt` contents a leaderboard
reload would use (the GAME_OVER transition performs none). -/
def tick (s : GameS) (r : Nat) (scoresFile : List (String × Int)) : GameS :=
  let s1 := { s with currentDirection := s.nextDirection }
  let s2 := moveSnake s1
  if checkCollision s2.snake s2.obstacles then
    changeState (savePersonalBest (saveToLeaderboard s2)) GameState.GAME_OVER scoresFile
  else if s2.snake.headD ⟨0, 0⟩ = s2.food then
    let s3 := { s2 with score := s2.score + 10 }
    { s3 with food := generateFood s3.snake s3.obstacles s3.food r }
  else
    { s2 with snake := s2.snake.dropLast }

/-- One directional key press in `Game::handleGameInput` (game.cpp lines
116-119): the direction is buffered into `nextDirection` unless the current
direction is its opposite, in which case nothing changes. -/
def handleGameInputDir (s : GameS) (d : Direction) : GameS :=
  match d with
  | Direction.UP =>
    if s.currentDirection ≠ Direction.DOWN then { s with nextDirection := Direction.UP }
    else s
  | Direction.DOWN =>
    if s.currentDirection ≠ Direction.UP then { s with nextDirection := Direction.DOWN }
    else s
  | Direction.LEFT =>
    if s.currentDirection ≠ Direction.RIGHT then { s with nextDirection := Direction.LEFT }
    else s
  | Direction.RIGHT =>
    if s.currentDirection ≠ Direction.LEFT then { s with nextDirection := Direction.RIGHT }
    else s

/-- Iterated movement ticks with the given `rand()` draws (the `scores.txt`
parameter is irrelevant on collision-free runs and fixed to `[]`). -/
def runTicks (s : GameS) : List Nat → GameS
  | [] => s
  | r :: rs => runTicks (tick s r []) rs

/-- A tick is quiet when the game is PLAYING, the snake is non-empty, and the
moved head neither collides nor lands on the food. -/
def quietTick (s : GameS) : Prop :=
  s.currentState = GameState.PLAYING
  ∧ s.snake ≠ []
  ∧ checkCollision (moveSnake { s with currentDirection := s.nextDirection }).snake
      s.obstacles = false
  ∧ (moveSnake { s with currentDirection := s.nextDirection }).snake.headD ⟨0, 0⟩ ≠ s.food

instance (s : GameS) : Decidable (quietTick s) := by
  unfold quietTick
  infer_instance

/-- Every tick along the run is quiet. -/
def quietRun (s : GameS) : List Nat → Prop
  | [] => True
  | r :: rs => quietTick s ∧ quietRun (tick s r []) rs

instance quietRunDecidable : ∀ (s : GameS) (rs : List Nat), Decidable (quietRun s rs)
  | _, [] => isTrue trivial
  | s, r :: rs =>
    haveI := quietRunDecidable (tick s r []) rs
    inferInstanceAs (Decidable (_ ∧ _))

/-- Helper: `moveSnake` changes only the snake. -/
theorem moveSnake_currentDirection (s : GameS) :
    (moveSnake s).currentDirection = s.currentDirection := by
  unfold moveSnake
  split <;> rfl

/-- Helper: `moveSnake` keeps the food. -/
theorem moveSnake_food (s : GameS) : (moveSnake s).food = s.food := by
  unfold moveSnake
  split <;> rfl

/-- Helper: `moveSnake` keeps the obstacles. -/
theorem moveSnake_obstacles (s : GameS) : (moveSnake s).obstacles = s.obstacles := by
  unfold moveSnake
  split <;> rfl

/-- Helper: `moveSnake` keeps the score. -/
theorem moveSnake_score (s : GameS) : (moveSnake s).score = s.score := by
  unfold moveSnake
  split <;> rfl

/-- Helper: `moveSnake` keeps the state. -/
theorem moveSnake_currentState (s : GameS) :
    (moveSnake s).currentState = s.currentState := by
  unfold moveSnake
  split <;> rfl

/-- Helper: `savePersonalBest` keeps the snake. -/
theorem savePersonalBest_snake (s : GameS) : (savePersonalBest s).snake = s.snake := by
  unfold savePersonalBest
  split_ifs <;> rfl

/-- Helper: `savePersonalBest` keeps the score. -/
theorem savePersonalBest_score (s : GameS) : (savePersonalBest s).score = s.score := by
  unfold savePersonalBest
  split_ifs <;> rfl

/-- Helper: `savePersonalBest` keeps the state. -/
theorem savePersonalBest_currentState (s : GameS) :
    (savePersonalBest s).currentState = s.currentState := by
  unfold savePersonalBest
  split_ifs <;> rfl

/-- Helper: `savePersonalBest` keeps the direction. -/
theorem savePersonalBest_currentDirection (s : GameS) :
    (savePersonalBest s).currentDirection = s.currentDirection := by
  unfold savePersonalBest
  split_ifs <;> rfl

/-- Helper: a tick always ends in the direction that was buffered when it
began, whatever branch it takes. -/
theorem tick_currentDirection (s : GameS) (r : Nat) (sf : List (String × Int)) :
    (tick s r sf).currentDirection = s.nextDirection := by
  unfold tick
  dsimp only
  split_ifs <;>
    simp [changeState, saveToLeaderboard, savePersonalBest_currentDirection,
      moveSnake_currentDirection]

/-- Helper: committing the buffered direction and moving prepends the
offset head. -/
theorem moveSnake_commit (s : GameS) (h : Position) (t : List Position)
    (hs : s.snake = h :: t) :
    moveSnake { s with currentDirection := s.nextDirection }
      = { s with
          currentDirection := s.nextDirection
          snake := stepHead h s.nextDirection :: h :: t } := by
  unfold moveSnake
  dsimp only
  rw [hs]

/-- Helper: the movement tick on a non-empty snake, with the committed
direction, branch conditions, and branch results spelled out. -/
theorem tick_cons (s : GameS) (r : Nat) (sf : List (String × Int)) (h : Position)
    (t : List Position) (hs : s.snake = h :: t) :
    tick s r sf =
      if checkCollision (stepHead h s.nextDirection :: h :: t) s.obstacles then
        changeState (savePersonalBest (saveToLeaderboard
          { s with
            currentDirection := s.nextDirection
            snake := stepHead h s.nextDirection :: h :: t }))
          GameState.GAME_OVER sf
      else if stepHead h s.nextDirection = s.food then
        { s with
          currentDirection := s.nextDirection
          snake := stepHead h s.nextDirection :: h :: t
          score := s.score + 10
          food := generateFood (stepHead h s.nextDirection :: h :: t)
            s.obstacles s.food r }
      else
        { s with
          currentDirection := s.nextDirection
          snake := (stepHead h s.nextDirection :: h :: t).dropLast } := by
  simp only [tick]
  rw [moveSnake_commit s h t hs]
  rfl

/-- Helper: a quiet tick preserves the snake's length. -/
theorem quietTick_length (s : GameS) (r : Nat) (hq : quietTick s) :
    (tick s r []).snake.length = s.snake.length := by
  obtain ⟨_, hne, hnc, hnf⟩ := hq
  obtain ⟨h, t, hs⟩ := List.exists_cons_of_ne_nil hne
  have hnc2 : checkCollision (stepHead h s.nextDirection :: h :: t) s.obstacles
      = false := by
    rw [moveSnake_commit s h t hs] at hnc
    exact hnc
  have hnf2 : stepHead h s.nextDirection ≠ s.food := by
    rw [moveSnake_commit s h t hs] at hnf
    simpa using hnf
  rw [tick_cons s r [] h t hs]
  rw [if_neg (by rw [hnc2]; exact Bool.false_ne_true)]
  rw [if_neg hnf2]
  simp [hs, List.length_dropLast]

/-- Helper: a quiet run preserves the snake's length. -/
theorem quietRun_length : ∀ (rs : List Nat) (s : GameS), quietRun s rs →
    (runTicks s rs).snake.length = s.snake.length
  | [], _, _ => rfl
  | r :: rs, s, hq => by
    obtain ⟨hq1, hq2⟩ := hq
    simp only [runTicks]
    rw [quietRun_length rs _ hq2, quietTick_length s r hq1]

/-- C2: on a collision-free tick in the PLAYING state, landing on the food
keeps the tail (length grows by exactly one), adds exactly 10 to the score
and regenerates the food from the post-move occupancy; landing elsewhere
drops the tail, leaving length and score unchanged. The initial snake has
length 3, and after any quiet (no-food, no-collision) run of ticks from the
initial snake the length is still 3. -/
theorem update_growth_policy (s : GameS) (r : Nat) (sf : List (String × Int))
    (h : Position) (t : List Position)
    (hs : s.snake = h :: t) (_hstate : s.currentState = GameState.PLAYING)
    (hnc : checkCollision (stepHead h s.nextDirection :: h :: t) s.obstacles = false) :
    (stepHead h s.nextDirection = s.food →
      (tick s r sf).snake.length = s.snake.length + 1
        ∧ (tick s r sf).score = s.score + 10
        ∧ (tick s r sf).food
            = generateFood (stepHead h s.nextDirection :: h :: t) s.obstacles s.food r)
    ∧ (stepHead h s.nextDirection ≠ s.food →
      (tick s r sf).snake.length = s.snake.length
        ∧ (tick s r sf).score = s.score)
    ∧ (∀ s0 : GameS, (initializeSnake s0).snake.length = 3)
    ∧ (∀ (s0 : GameS) (rs : List Nat), quietRun (initializeSnake s0) rs →
        (runTicks (initializeSnake s0) rs).snake.length = 3) := by
  refine ⟨fun hfood => ?_, fun hnfood => ?_, fun s0 => rfl, fun s0 rs hq => ?_⟩
  · rw [tick_cons s r sf h t hs, if_neg (by rw [hnc]; exact Bool.false_ne_true),
      if_pos hfood]
    refine ⟨?_, rfl, rfl⟩
    simp [hs]
  · rw [tick_cons s r sf h t hs, if_neg (by rw [hnc]; exact Bool.false_ne_true),
      if_neg hnfood]
    refine ⟨?_, rfl⟩
    simp [hs, List.length_dropLast]
  · rw [quietRun_length rs _ hq]
    rfl

/-- Shared concrete playing state for the tick witnesses: the initial snake
at the grid centre, food one cell above the head, no obstacles. -/
def baseState : GameS :=
  { currentState := GameState.PLAYING,
    snake := [⟨15, 10⟩, ⟨15, 11⟩, ⟨15, 12⟩],
    food := ⟨15, 9⟩,
    obstacles := [],
    currentDirection := Direction.UP,
    nextDirection := Direction.UP,
    score := 0,
    personalBestScore := 0,
    overallHighestScore := 0,
    playerName := "p",
    leaderboard := [],
    selectedMenuItem := 0 }

/-- Witness for C2: from `baseState` the upward tick eats the food at
`(15, 9)` (length 4, score 10), and a quiet two-tick run from the initialized
snake with the food out of the way keeps length 3. -/
theorem update_growth_policy_witness :
    (tick baseState 0 []).snake.length = baseState.snake.length + 1
    ∧ (tick baseState 0 []).score = baseState.score + 10
    ∧ (runTicks (initializeSnake { baseState with food := ⟨0, 0⟩ }) [1, 2]).snake.length
        = 3 :=
  ⟨((update_growth_policy baseState 0 [] ⟨15, 10⟩ [⟨15, 11⟩, ⟨15, 12⟩] rfl rfl
      (by decide)).1 (by decide)).1,
   ((update_growth_policy baseState 0 [] ⟨15, 10⟩ [⟨15, 11⟩, ⟨15, 12⟩] rfl rfl
      (by decide)).1 (by decide)).2.1,
   (update_growth_policy baseState 0 [] ⟨15, 10⟩ [⟨15, 11⟩, ⟨15, 12⟩] rfl rfl
      (by decide)).2.2.2 { baseState with food := ⟨0, 0⟩ } [1, 2] (by decide)⟩

/-- C10 (implicit): on a tick whose moved head collides, the freshly
prepended head stays in the body (length = previous length + 1, head possibly
off-grid), the tail is not removed, the score is unchanged — also when the
colliding head sits on the food, since the collision test precedes the food
test — and the state transitions to GAME_OVER. -/
theorem update_collision_keeps_head (s : GameS) (r : Nat) (sf : List (String × Int))
    (h : Position) (t : List Position) (hs : s.snake = h :: t)
    (_hstate : s.currentState = GameState.PLAYING)
    (hc : checkCollision (stepHead h s.nextDirection :: h :: t) s.obstacles = true) :
    (tick s r sf).snake = stepHead h s.nextDirection :: h :: t
    ∧ (tick s r sf).snake.length = s.snake.length + 1
    ∧ (tick s r sf).score = s.score
    ∧ (tick s r sf).currentState = GameState.GAME_OVER := by
  have htick : tick s r sf
      = changeState (savePersonalBest (saveToLeaderboard
          { s with
            currentDirection := s.nextDirection
            snake := stepHead h s.nextDirection :: h :: t }))
          GameState.GAME_OVER sf := by
    rw [tick_cons s r sf h t hs, if_pos hc]
  rw [htick]
  refine ⟨?_, ?_, ?_, by simp [changeState]⟩
  · simp [changeState, savePersonalBest_snake, saveToLeaderboard]
  · simp [changeState, savePersonalBest_snake, saveToLeaderboard, hs]
  · simp [changeState, savePersonalBest_score, saveToLeaderboard]

/-- Witness for C10: the snake at the top-left edge moving UP runs off the
grid; the colliding head is kept, the score stays 0, the state becomes
GAME_OVER. -/
theorem update_collision_keeps_head_witness :
    (tick { baseState with snake := [⟨0, 0⟩, ⟨0, 1⟩, ⟨0, 2⟩] } 0 []).snake.length
        = ({ baseState with snake := [⟨0, 0⟩, ⟨0, 1⟩, ⟨0, 2⟩] } : GameS).snake.length + 1
    ∧ (tick { baseState with snake := [⟨0, 0⟩, ⟨0, 1⟩, ⟨0, 2⟩] } 0 []).score
        = ({ baseState with snake := [⟨0, 0⟩, ⟨0, 1⟩, ⟨0, 2⟩] } : GameS).score
    ∧ (tick { baseState with snake := [⟨0, 0⟩, ⟨0, 1⟩, ⟨0, 2⟩] } 0 []).currentState
        = GameState.GAME_OVER :=
  ⟨(update_collision_keeps_head { baseState with snake := [⟨0, 0⟩, ⟨0, 1⟩, ⟨0, 2⟩] }
      0 [] ⟨0, 0⟩ [⟨0, 1⟩, ⟨0, 2⟩] rfl rfl (by decide)).2.1,
   (update_collision_keeps_head { baseState with snake := [⟨0, 0⟩, ⟨0, 1⟩, ⟨0, 2⟩] }
      0 [] ⟨0, 0⟩ [⟨0, 1⟩, ⟨0, 2⟩] rfl rfl (by decide)).2.2.1,
   (update_collision_keeps_head { baseState with snake := [⟨0, 0⟩, ⟨0, 1⟩, ⟨0, 2⟩] }
      0 [] ⟨0, 0⟩ [⟨0, 1⟩, ⟨0, 2⟩] rfl rfl (by decide)).2.2.2⟩

/-- Counterexample for C3: with current direction UP and the direction LEFT
already buffered, the opposite input DOWN is discarded, yet the following
tick commits the buffer and changes the current direction to LEFT — the
claim's "ticking leaves the current direction unchanged" fails. -/
theorem direction_buffer_cex :
    (tick (handleGameInputDir { baseState with nextDirection := Direction.LEFT }
        Direction.DOWN) 0 []).currentDirection = Direction.LEFT
    ∧ Direction.LEFT
        ≠ ({ baseState with nextDirection := Direction.LEFT } : GameS).currentDirection := by
  constructor
  · decide
  · decide

/-- C3 (amended): an input opposite to the current direction never overwrites
the buffer, and the buffer is committed to the current direction at the start
of a tick; hence buffering a non-opposite direction `d` and ticking makes the
current direction `d`, while for an opposite `d` the buffer is left unchanged
and ticking sets the current direction to the previously buffered direction
(so it is unchanged exactly when the buffer equals the current direction). -/
theorem direction_buffer_amended (s : GameS) (d : Direction) (r : Nat)
    (sf : List (String × Int)) :
    (oppositeDir d ≠ s.currentDirection →
      (tick (handleGameInputDir s d) r sf).currentDirection = d)
    ∧ (oppositeDir d = s.currentDirection →
      (handleGameInputDir s d).nextDirection = s.nextDirection
        ∧ (tick (handleGameInputDir s d) r sf).currentDirection = s.nextDirection) := by
  constructor
  · intro hop
    have hbuf : (handleGameInputDir s d).nextDirection = d := by
      cases d
      all_goals
        simp only [oppositeDir] at hop
        simp only [handleGameInputDir]
        rw [if_pos (Ne.symm hop)]
    rw [tick_currentDirection, hbuf]
  · intro hop
    have hbuf : (handleGameInputDir s d).nextDirection = s.nextDirection := by
      cases d
      all_goals
        simp only [oppositeDir] at hop
        simp only [handleGameInputDir]
        rw [if_neg (fun hh => hh hop.symm)]
    exact ⟨hbuf, by rw [tick_currentDirection, hbuf]⟩

/-- Witness for C3 (amended): from `baseState` (current UP, buffer UP),
buffering RIGHT and ticking yields RIGHT; buffering the opposite DOWN leaves
the buffer at UP and ticking keeps UP. -/
theorem direction_buffer_amended_witness :
    (tick (handleGameInputDir baseState Direction.RIGHT) 0 []).currentDirection
        = Direction.RIGHT
    ∧ (handleGameInputDir baseState Direction.DOWN).nextDirection
        = baseState.nextDirection
    ∧ (tick (handleGameInputDir baseState Direction.DOWN) 0 []).currentDirection
        = baseState.nextDirection :=
  ⟨(direction_buffer_amended baseState Direction.RIGHT 0 []).1 (by decide),
   ((direction_buffer_amended baseState Direction.DOWN 0 []).2 (by decide)).1,
   ((direction_buffer_amended baseState Direction.DOWN 0 []).2 (by decide)).2⟩

/-- Counterexample for C5: `scores.txt` with eleven distinct names gives an
in-memory leaderboard of eleven entries after entering the LEADERBOARD state —
`loadLeaderboard` performs no truncation to `MAX_LEADERBOARD_ENTRIES`. -/
theorem loadLeaderboard_cex :
    (changeState baseState GameState.LEADERBOARD
        [("a", 1), ("b", 2), ("c", 3), ("d", 4), ("e", 5), ("f", 6),
         ("g", 7), ("h", 8), ("i", 9), ("j", 10), ("k", 11)]).leaderboard.length = 11
    ∧ ¬((changeState baseState GameState.LEADERBOARD
        [("a", 1), ("b", 2), ("c", 3), ("d", 4), ("e", 5), ("f", 6),
         ("g", 7), ("h", 8), ("i", 9), ("j", 10), ("k", 11)]).leaderboard.length
        ≤ MAX_LEADERBOARD_ENTRIES) := by
  constructor
  · decide
  · decide

/-- C5 (amended): entering the LEADERBOARD state rebuilds the in-memory
leaderboard from the persisted store; the result is deduplicated with
pairwise-distinct names, each entry carrying the per-name maximum score of
the file, every name of the file represented, and is sorted descending by
score. No truncation to 10 happens at load time (that bound is only enforced
by `saveToLeaderboard` and by the rendering loop). -/
theorem loadLeaderboard_amended (s : GameS) (file : List (String × Int)) :
    (changeState s GameState.LEADERBOARD file).leaderboard = loadLeaderboardList file
    ∧ List.Sorted entryOrder (loadLeaderboardList file)
    ∧ List.Pairwise (fun a b : ScoreEntry => a.name ≠ b.name) (loadLeaderboardList file)
    ∧ (∀ e ∈ loadLeaderboardList file, bestOf e.name file = some e.score)
    ∧ (∀ p ∈ file, ∃ e ∈ loadLeaderboardList file, e.name = p.1) := by
  refine ⟨by simp [changeState], sortEntries_sorted _, ?_, ?_, ?_⟩
  · have hperm := sortEntries_perm ((buildBestScores file).map (fun p => ⟨p.1, p.2⟩))
    have hsym : ∀ {a b : ScoreEntry}, a.name ≠ b.name → b.name ≠ a.name :=
      fun hab hh => hab hh.symm
    rw [loadLeaderboardList]
    refine (List.Perm.pairwise_iff hsym hperm).mpr ?_
    rw [List.pairwise_map]
    refine List.Pairwise.imp ?_ (buildBest_sorted file)
    intro a b hab
    exact strLt_ne hab
  · intro e he
    have hperm := sortEntries_perm ((buildBestScores file).map (fun p => ⟨p.1, p.2⟩))
    have he2 : e ∈ (buildBestScores file).map (fun p => (⟨p.1, p.2⟩ : ScoreEntry)) :=
      hperm.mem_iff.mp he
    obtain ⟨p, hp, hpe⟩ := List.mem_map.mp he2
    subst hpe
    show bestOf p.1 file = some p.2
    rw [← mapLookup_buildBest]
    exact mapLookup_of_mem (buildBestScores file) (buildBest_sorted file) p hp
  · intro p hp
    obtain ⟨w, hw⟩ := bestOf_of_mem p file Option.none hp
    have hlk : mapLookup p.1 (buildBestScores file) = some w := by
      rw [mapLookup_buildBest]
      exact hw
    have hmem := mem_of_mapLookup p.1 w (buildBestScores file) hlk
    refine ⟨⟨p.1, w⟩, ?_, rfl⟩
    rw [loadLeaderboardList]
    refine (sortEntries_perm _).mem_iff.mpr ?_
    exact List.mem_map.mpr ⟨(p.1, w), hmem, rfl⟩

/-- Witness for C5 (amended) at the spec's merge example: the file
`[(x,10),(x,20)]` rebuilds on entry to the leaderboard view, the per-name
maximum for `x` is 20, and `x` appears in the result. -/
theorem loadLeaderboard_amended_witness :
    (changeState baseState GameState.LEADERBOARD [("x", 10), ("x", 20)]).leaderboard
        = loadLeaderboardList [("x", 10), ("x", 20)]
    ∧ bestOf "x" [("x", 10), ("x", 20)] = some 20
    ∧ (∃ e ∈ loadLeaderboardList [("x", 10), ("x", 20)], e.name = "x") :=
  ⟨(loadLeaderboard_amended baseState [("x", 10), ("x", 20)]).1,
   (loadLeaderboard_amended baseState [("x", 10), ("x", 20)]).2.2.2.1
     ⟨"x", 20⟩ (by decide),
   (loadLeaderboard_amended baseState [("x", 10), ("x", 20)]).2.2.2.2
     ("x", 10) (by decide)⟩

end SnakeGame
